import Mathlib

/-!
Shallow embedding of the "Route Planner UI" single-page application
(`src/App.tsx`) of the Route-Optimization-Using-Open-Routes-Service
repository, together with a model of the `@mapbox/polyline` geometry codec
it delegates to.

Conventions of the embedding:
* JavaScript numbers that hold coordinates are modelled as rationals (`ℚ`);
  the integer arithmetic of the polyline codec is exact at these magnitudes.
* JavaScript strings are modelled as their lists of UTF-16 code units
  (`List Nat`), which is what `charCodeAt` / `fromCharCode` operate on.
* `null`/`undefined` fields become `Option`.
* The React `useState` cells become the fields of an explicit `AppState`
  record; each event handler becomes a pure `AppState → AppState` function
  (the network exchange of `handleOptimize` is passed in as an explicit
  `Except`-valued response argument, and the request actually issued, if
  any, is returned alongside the new state).
-/

namespace RoutePlanner

/-- A Leaflet `latlng` pair, as delivered by a map click. -/
structure LatLng where
  lat : ℚ
  lng : ℚ
  deriving DecidableEq, Repr

/-- A job entry as built by `addJob` in `App.tsx`:
`{ lat, lng, time_window: [start, end] | undefined }`. -/
structure Job where
  lat : ℚ
  lng : ℚ
  time_window : Option (Int × Int)
  deriving DecidableEq, Repr

/-- A vehicle entry as built by `addVehicle` in `App.tsx`:
`{ start: [lng, lat], end: [lng, lat], time_window: [start, end] | undefined }`. -/
structure Vehicle where
  start : ℚ × ℚ
  «end» : ℚ × ℚ
  time_window : Option (Int × Int)
  deriving DecidableEq, Repr

/-- The `useState` cells of the `App` component.  Date pickers hold a
JavaScript `Date`, modelled by its `getTime()` value in milliseconds. -/
structure AppState where
  jobs : List Job
  vehicles : List Vehicle
  selectedLocation : Option LatLng
  routes : List (List (ℚ × ℚ))
  error : String
  success : String
  jobTimeWindowStart : Option Int
  jobTimeWindowEnd : Option Int
  vehicleTimeWindowStart : Option Int
  vehicleTimeWindowEnd : Option Int
  deriving DecidableEq, Repr

/-- `Math.floor(new Date(d).getTime() / 1000)`: milliseconds to epoch
seconds.  For an integer count of milliseconds, flooring the exact quotient
is floor division by 1000 (`epochSeconds_eq_floor` below). -/
def epochSeconds (millis : Int) : Int :=
  Int.fdiv millis 1000

/-- The optional `[start, end]` time window built by `addJob`/`addVehicle`
from the two picker values: present only when both pickers hold a value. -/
def pickedWindow : Option Int → Option Int → Option (Int × Int)
  | some s, some e => some (epochSeconds s, epochSeconds e)
  | _, _ => none

/-- `addJob` from `App.tsx`: no-op without a selected location; otherwise
appends one job at the selected location with the optional picked time
window, then clears the selection and both job pickers. -/
def addJob (s : AppState) : AppState :=
  match s.selectedLocation with
  | none => s
  | some loc =>
      { s with
        jobs := s.jobs ++
          [{ lat := loc.lat, lng := loc.lng,
             time_window := pickedWindow s.jobTimeWindowStart s.jobTimeWindowEnd }]
        selectedLocation := none
        jobTimeWindowStart := none
        jobTimeWindowEnd := none }

/-- `addVehicle` from `App.tsx`: no-op without a selected location;
otherwise appends one vehicle with `start = end = [lng, lat]` of the
selected location and the optional picked time window, then clears the
selection and both vehicle pickers. -/
def addVehicle (s : AppState) : AppState :=
  match s.selectedLocation with
  | none => s
  | some loc =>
      { s with
        vehicles := s.vehicles ++
          [{ start := (loc.lng, loc.lat), «end» := (loc.lng, loc.lat),
             time_window := pickedWindow s.vehicleTimeWindowStart s.vehicleTimeWindowEnd }]
        selectedLocation := none
        vehicleTimeWindowStart := none
        vehicleTimeWindowEnd := none }

/-- `list.filter((_, i) => i !== index)` — JavaScript `Array.prototype.filter`
with the position of the element exposed to the predicate. -/
def filterOutIndex (l : List α) (index : Nat) : List α :=
  (l.enum.filter (fun p => p.1 ≠ index)).map Prod.snd

/-- `removeJob` from `App.tsx`. -/
def removeJob (s : AppState) (index : Nat) : AppState :=
  { s with jobs := filterOutIndex s.jobs index }

/-- `removeVehicle` from `App.tsx`. -/
def removeVehicle (s : AppState) (index : Nat) : AppState :=
  { s with vehicles := filterOutIndex s.vehicles index }

/-! ### The polyline geometry codec

`App.tsx` calls `polyline.decode` from the `@mapbox/polyline` package, whose
code is not part of this repository.  The spec pins it down as the standard
polyline encoding — delta + base-64-like varint chunks at precision 5 — and
requires the decode to be lossless round-trip-compatible with the encoding.
The definitions below model that codec from the spec.  Encoded strings are
lists of UTF-16 code units. -/

/-- Modelled from the spec: the signed-to-unsigned "zigzag" step of the
standard polyline encoding (`coordinate <<= 1; if negative, invert bits`),
applied to a coordinate delta. -/
def zigzag (d : Int) : Nat :=
  if d < 0 then (-(2 * d) - 1).toNat else (2 * d).toNat

/-- Modelled from the spec: the inverse zigzag step used while decoding a
chunk value (`(result & 1) ? (-result - 1) / 2 : result / 2`). -/
def unzigzag (r : Nat) : Int :=
  if r % 2 = 1 then -(((r : Int) + 1) / 2) else (r : Int) / 2

/-- Fuelled worker for `encodeChunk`; the fuel only bounds the recursion
depth (one five-bit group per step) and never runs out when it starts at
the encoded value itself. -/
def encodeChunkGo (fuel n : Nat) : List Nat :=
  match fuel with
  | 0 => [n + 63]
  | fuel + 1 =>
      if 0x20 ≤ n then ((0x20 ||| n % 0x20) + 63) :: encodeChunkGo fuel (n / 0x20)
      else [n + 63]

/-- Modelled from the spec: one base-64-like varint chunk of the standard
polyline encoding — five value bits per character, continuation bit `0x20`,
each character offset by 63. -/
def encodeChunk (n : Nat) : List Nat :=
  encodeChunkGo n n


/-- Modelled from the spec: reading one varint chunk while decoding —
accumulate `(char − 63) & 0x1f` scaled by the running shift until a
character without the `0x20` continuation bit (an exhausted input ends the
chunk, as reading past the end of a string does). -/
def decodeChunk : List Nat → Nat → Nat → Nat × List Nat
  | [], result, _ => (result, [])
  | c :: rest, result, shift =>
      let byte : Int := (c : Int) - 63
      let result' := result + (byte % 32).toNat * shift
      if 0x20 ≤ byte then decodeChunk rest result' (shift * 32) else (result', rest)


/-- Fuelled worker for `decodeLoop`; each iteration consumes at least one
input character, so fuel starting at the input length never runs out. -/
def decodeGo : Nat → List Nat → Int → Int → List (Int × Int)
  | 0, _, _, _ => []
  | _ + 1, [], _, _ => []
  | fuel + 1, c :: rest, lat, lng =>
      let p1 := decodeChunk (c :: rest) 0 1
      let p2 := decodeChunk p1.2 0 1
      let lat' := lat + unzigzag p1.1
      let lng' := lng + unzigzag p2.1
      (lat', lng') :: decodeGo fuel p2.2 lat' lng'

/-- Modelled from the spec: the decoding loop of the standard polyline
encoding — while input remains, read a latitude chunk and a longitude chunk,
unzigzag them, add the deltas to the running coordinates and emit the pair.
Coordinates are the integers scaled by the precision factor. -/
def decodeLoop (s : List Nat) (lat lng : Int) : List (Int × Int) :=
  decodeGo s.length s lat lng


/-- Modelled from the spec: `polyline.decode` at the default precision 5 —
an ordered list of `(lat, lng)` pairs, each scaled integer divided by
`10^5`. -/
def polylineDecode (s : List Nat) : List (ℚ × ℚ) :=
  (decodeLoop s 0 0).map (fun p => ((p.1 : ℚ) / 100000, (p.2 : ℚ) / 100000))

/-- Modelled from the spec: rounding half away from zero
(`Math.floor(Math.abs(v) + 0.5) * (v < 0 ? -1 : 1)`), used by the encoder to
scale a coordinate to an integer. -/
def py2Round (x : ℚ) : Int :=
  Int.floor (|x| + 1 / 2) * (if x < 0 then -1 else 1)

/-- Modelled from the spec: encoding one coordinate as the zigzagged varint
chunk of its delta from the previous coordinate, both scaled to integers at
precision 5. -/
def encodeNumber (current previous : ℚ) : List Nat :=
  encodeChunk (zigzag (py2Round (current * 100000) - py2Round (previous * 100000)))

/-- Modelled from the spec: the encoding loop — each pair is encoded as a
latitude chunk then a longitude chunk, each relative to the previous pair
(the pair before the first is `(0, 0)`). -/
def encodeRest (prev : ℚ × ℚ) : List (ℚ × ℚ) → List Nat
  | [] => []
  | a :: rest => encodeNumber a.1 prev.1 ++ encodeNumber a.2 prev.2 ++ encodeRest a rest

/-- Modelled from the spec: `polyline.encode` at the default precision 5
(the empty list encodes to the empty string). -/
def polylineEncode (coords : List (ℚ × ℚ)) : List Nat :=
  encodeRest (0, 0) coords

/-- A valid encoded geometry string: one that the encoder of the codec can
produce, i.e. the polyline encoding of some coordinate sequence. -/
def ValidEncoding (s : List Nat) : Prop :=
  ∃ coords : List (ℚ × ℚ), polylineEncode coords = s

/-- A react-leaflet `pathOptions` value; only the fields that occur in the
`Options` palette are modelled. -/
structure PathStyle where
  color : Option String
  fillColor : Option String
  deriving DecidableEq, Repr, Inhabited

/-- The fixed five-entry `Options` palette of `App.tsx`. -/
def Options : List PathStyle :=
  [ { color := none, fillColor := some "blue" },
    { color := some "black", fillColor := none },
    { color := some "lime", fillColor := none },
    { color := some "purple", fillColor := none },
    { color := some "red", fillColor := none } ]

/-- `Options[index] || Options[0]`: the style used for the route at a given
position (every palette entry is a truthy object, so `||` falls back exactly
when the index is out of range). -/
def styleForRoute (index : Nat) : PathStyle :=
  match Options[index]? with
  | some st => st
  | none => Options[0]!

/-! ### The optimization request -/

/-- One entry of the `vehicles` array of the request body built by
`handleOptimize`: `{ id: index, start, time_window }`. -/
structure PayloadVehicle where
  id : Nat
  start : ℚ × ℚ
  time_window : Option (Int × Int)
  deriving DecidableEq, Repr

/-- One entry of the `jobs` array of the request body built by
`handleOptimize`: `{ id: index, location: [lng, lat], time_windows:
[time_window] | undefined }`. -/
structure PayloadJob where
  id : Nat
  location : ℚ × ℚ
  time_windows : Option (List (Int × Int))
  deriving DecidableEq, Repr

/-- The request body `data` built by `handleOptimize`. -/
structure Payload where
  vehicles : List PayloadVehicle
  jobs : List PayloadJob
  deriving DecidableEq, Repr

/-- The `const data = { vehicles: ..., jobs: ... }` construction of
`handleOptimize`. -/
def buildData (vehicles : List Vehicle) (jobs : List Job) : Payload :=
  { vehicles := vehicles.mapIdx (fun index vehicle =>
      { id := index, start := vehicle.start, time_window := vehicle.time_window }),
    jobs := jobs.mapIdx (fun index job =>
      { id := index, location := (job.lng, job.lat),
        time_windows := job.time_window.map (fun w => [w]) }) }

/-- One entry of the `routes` array of the solver; only the `geometry` field is
read.  `none` models a missing or non-string geometry, on which
`polyline.decode` throws. -/
structure SolverRoute where
  geometry : Option (List Nat)
  deriving DecidableEq, Repr

/-- The body of a successful solver response; `routes := none` models a
body without a `routes` array, on which `solution.routes.map` throws. -/
structure Solution where
  routes : Option (List SolverRoute)
  deriving DecidableEq, Repr

/-- The outcome of the `axios.post` exchange: `Except.error ()` is a
network failure or non-2xx response (an `axios` throw), `Except.ok`
carries the response body. -/
def NetResult : Type := Except Unit Solution

/-- `solution.routes.map((route) => polyline.decode(route.geometry))`:
`none` when the expression throws (missing `routes` array or a missing
geometry), otherwise the list of decoded routes. -/
def decodeSolution (sol : Solution) : Option (List (List (ℚ × ℚ))) :=
  match sol.routes with
  | none => none
  | some rs => rs.mapM (fun r => r.geometry.map polylineDecode)

/-- The outcome of the `try` block of `handleOptimize`: the decoded routes
of a successful response, or `none` when the block throws — a network
failure or non-2xx response (`Except.error`), a body without a `routes`
array, or a missing geometry.  All throws reach the same `catch`. -/
def netOutcome (net : NetResult) : Option (List (List (ℚ × ℚ))) :=
  match net with
  | .error _ => none
  | .ok sol => decodeSolution sol

/-- `handleOptimize` from `App.tsx`, with the network exchange passed in as
`net`.  Returns the new state together with the request body actually sent
(`none` when the precondition check stops the call).  The handler first
clears both message slots and then possibly sets one, so the final state of each branch carries the cleared value of the slot it does not set. -/
def handleOptimize (s : AppState) (net : NetResult) : AppState × Option Payload :=
  if s.vehicles.length = 0 ∨ s.jobs.length = 0 then
    ({ s with error := "Please add at least one vehicle and one job.", success := "" }, none)
  else
    let data := buildData s.vehicles s.jobs
    match netOutcome net with
    | none =>
        ({ s with error := "Error optimizing routes. Please try again.", success := "" },
          some data)
    | some newRoutes =>
        ({ s with
            routes := newRoutes
            error := ""
            success := "Routes optimized successfully!" },
          some data)

/-! ### Auxiliary definitions for the codec proofs -/

/-- A coordinate pair scaled to integers at precision 5, as the encoder
rounds it. -/
def scaleRound (a : ℚ × ℚ) : Int × Int :=
  (py2Round (a.1 * 100000), py2Round (a.2 * 100000))

/-- The encoding loop on already-scaled integer coordinates. -/
def encodeIntsRest (prev : Int × Int) : List (Int × Int) → List Nat
  | [] => []
  | a :: rest =>
      encodeChunk (zigzag (a.1 - prev.1)) ++ encodeChunk (zigzag (a.2 - prev.2)) ++
        encodeIntsRest a rest

/-- The code units of the geometry string
`"_p~iF~ps|U_ulLnnqC_mqNvxq`@"` from the decoding example of the spec. -/
def exampleGeometry : List Nat :=
  [95, 112, 126, 105, 70, 126, 112, 115, 124, 85, 95, 117, 108, 76,
   110, 110, 113, 67, 95, 109, 113, 78, 118, 120, 113, 96, 64]

/-- The coordinate path of the decoding example of the spec. -/
def examplePath : List (ℚ × ℚ) :=
  [(38.5, -120.2), (40.7, -120.95), (43.252, -126.453)]

/-! ### Sample data for concrete instantiations -/

/-- A populated sample state: two jobs, one vehicle, no pending selection,
a stale route and a stale error banner. -/
def sampleState : AppState :=
  { jobs := [{ lat := 30, lng := 31, time_window := none },
             { lat := 29, lng := 32, time_window := some (0, 3600) }]
    vehicles := [{ start := (31, 30), «end» := (31, 30), time_window := some (0, 7200) }]
    selectedLocation := none
    routes := [[(30, 31)]]
    error := "stale error"
    success := ""
    jobTimeWindowStart := none
    jobTimeWindowEnd := none
    vehicleTimeWindowStart := none
    vehicleTimeWindowEnd := none }

/-- `sampleState` with a pending map selection and both pairs of pickers
holding 2024-01-01T00:00:00Z and 2024-01-01T01:00:00Z. -/
def selectedState : AppState :=
  { sampleState with
    selectedLocation := some { lat := 30, lng := 31 }
    jobTimeWindowStart := some 1704067200000
    jobTimeWindowEnd := some 1704070800000
    vehicleTimeWindowStart := some 1704067200000
    vehicleTimeWindowEnd := some 1704070800000 }

/-- `sampleState` with the vehicle list emptied. -/
def emptyVehiclesState : AppState :=
  { sampleState with vehicles := [] }

/-! ## Lemmas about the codec -/

theorem encodeChunkGo_congr (n : Nat) : ∀ fuel₁ fuel₂, n ≤ fuel₁ → n ≤ fuel₂ →
    encodeChunkGo fuel₁ n = encodeChunkGo fuel₂ n := by
  induction n using Nat.strong_induction_on with
  | _ n ih =>
      intro fuel₁ fuel₂ h₁ h₂
      match fuel₁, fuel₂ with
      | 0, 0 => rfl
      | 0, f + 1 =>
          interval_cases n
          simp [encodeChunkGo]
      | f + 1, 0 =>
          interval_cases n
          simp [encodeChunkGo]
      | f₁ + 1, f₂ + 1 =>
          simp only [encodeChunkGo]
          split
          · rename_i h32
            have hdiv : n / 32 < n := Nat.div_lt_self (by omega) (by decide)
            rw [ih (n / 32) hdiv f₁ f₂ (by omega) (by omega)]
          · rfl

/-- The natural recursive unfolding of `encodeChunk` on a value that still
has a continuation group. -/
theorem encodeChunk_ge (n : Nat) (h : 0x20 ≤ n) :
    encodeChunk n = ((0x20 ||| n % 0x20) + 63) :: encodeChunk (n / 0x20) := by
  obtain ⟨m, rfl⟩ : ∃ m, n = m + 1 := ⟨n - 1, by omega⟩
  show encodeChunkGo (m + 1) (m + 1) = _
  simp only [encodeChunkGo, if_pos h]
  congr 1
  exact encodeChunkGo_congr _ _ _ (by omega) le_rfl

/-- `encodeChunk` on a value with a single five-bit group. -/
theorem encodeChunk_lt (n : Nat) (h : n < 0x20) : encodeChunk n = [n + 63] := by
  match n with
  | 0 => rfl
  | m + 1 =>
      show encodeChunkGo (m + 1) (m + 1) = _
      simp only [encodeChunkGo]
      rw [if_neg (by omega)]

theorem decodeChunk_length_le (l : List Nat) (result shift : Nat) :
    (decodeChunk l result shift).2.length ≤ l.length := by
  induction l generalizing result shift with
  | nil => simp [decodeChunk]
  | cons c rest ih =>
      simp only [decodeChunk]
      split
      · exact le_trans (ih _ _) (Nat.le_succ _)
      · exact Nat.le_succ _

theorem decodeChunk_cons_length_le (c : Nat) (rest : List Nat) (result shift : Nat) :
    (decodeChunk (c :: rest) result shift).2.length ≤ rest.length := by
  simp only [decodeChunk]
  split
  · exact decodeChunk_length_le _ _ _
  · exact le_refl _

theorem decodeGo_eq_decodeLoop (fuel : Nat) : ∀ (s : List Nat) (lat lng : Int),
    s.length ≤ fuel → decodeGo fuel s lat lng = decodeLoop s lat lng := by
  induction fuel using Nat.strong_induction_on with
  | _ fuel ih =>
      intro s lat lng h
      match s with
      | [] =>
          match fuel with
          | 0 => rfl
          | _ + 1 => rfl
      | c :: rest =>
          match fuel with
          | 0 => exact absurd h (by simp)
          | fuel + 1 =>
              show decodeGo (fuel + 1) (c :: rest) lat lng
                  = decodeGo (rest.length + 1) (c :: rest) lat lng
              simp only [decodeGo]
              congr 1
              have hlen : (decodeChunk (decodeChunk (c :: rest) 0 1).2 0 1).2.length
                  ≤ rest.length :=
                le_trans (decodeChunk_length_le _ _ _) (decodeChunk_cons_length_le _ _ _ _)
              have h1 : decodeGo fuel (decodeChunk (decodeChunk (c :: rest) 0 1).2 0 1).2
                  = decodeLoop (decodeChunk (decodeChunk (c :: rest) 0 1).2 0 1).2 := by
                funext lat' lng'
                exact ih fuel (Nat.lt_succ_self _) _ _ _
                  (le_trans hlen (by simpa using Nat.le_of_succ_le_succ h))
              have h2 : decodeGo rest.length (decodeChunk (decodeChunk (c :: rest) 0 1).2 0 1).2
                  = decodeLoop (decodeChunk (decodeChunk (c :: rest) 0 1).2 0 1).2 := by
                funext lat' lng'
                exact ih rest.length (by simp at h; omega) _ _ _ hlen
              rw [h1, h2]

/-- The natural recursive unfolding of `decodeLoop` on a nonempty input. -/
theorem decodeLoop_cons (c : Nat) (rest : List Nat) (lat lng : Int) :
    decodeLoop (c :: rest) lat lng =
      (lat + unzigzag (decodeChunk (c :: rest) 0 1).1,
        lng + unzigzag (decodeChunk (decodeChunk (c :: rest) 0 1).2 0 1).1) ::
        decodeLoop (decodeChunk (decodeChunk (c :: rest) 0 1).2 0 1).2
          (lat + unzigzag (decodeChunk (c :: rest) 0 1).1)
          (lng + unzigzag (decodeChunk (decodeChunk (c :: rest) 0 1).2 0 1).1) := by
  show decodeGo (rest.length + 1) (c :: rest) lat lng = _
  simp only [decodeGo]
  congr 1
  exact decodeGo_eq_decodeLoop _ _ _ _
    (le_trans (decodeChunk_length_le _ _ _) (decodeChunk_cons_length_le _ _ _ _))

theorem lor_32 (m : Nat) (h : m < 32) : 32 ||| m = 32 + m := by
  interval_cases m <;> rfl

theorem encodeChunk_shape (n : Nat) : ∃ c cs, encodeChunk n = c :: cs := by
  rcases lt_or_le n 32 with h | h
  · exact ⟨n + 63, [], encodeChunk_lt n h⟩
  · exact ⟨_, _, encodeChunk_ge n h⟩

theorem decodeChunk_encodeChunk (n : Nat) : ∀ (rest : List Nat) (acc shift : Nat),
    decodeChunk (encodeChunk n ++ rest) acc shift = (acc + n * shift, rest) := by
  induction n using Nat.strong_induction_on with
  | _ n ih =>
      intro rest acc shift
      rcases lt_or_le n 32 with h | h
      · rw [encodeChunk_lt n h]
        simp only [List.cons_append, List.nil_append, decodeChunk]
        have hb : ((n + 63 : Nat) : Int) - 63 = (n : Int) := by push_cast; ring
        rw [hb, if_neg (by exact_mod_cast Nat.not_le.mpr h)]
        have hm : (((n : Int)) % 32).toNat = n := by omega
        rw [hm]
        rfl
      · rw [encodeChunk_ge n h]
        simp only [List.cons_append, List.append_eq, decodeChunk]
        have hb : (((0x20 ||| n % 0x20) + 63 : Nat) : Int) - 63
            = ((0x20 ||| n % 0x20 : Nat) : Int) := by
          push_cast; ring
        rw [hb, lor_32 _ (Nat.mod_lt _ (by omega))]
        rw [if_pos (by exact_mod_cast Nat.le_add_right 32 (n % 32))]
        have hm : (((32 + n % 32 : Nat) : Int) % 32).toNat = n % 32 := by omega
        rw [hm, ih (n / 32) (Nat.div_lt_self (by omega) (by omega))]
        refine Prod.ext ?_ rfl
        show acc + n % 32 * shift + n / 32 * (shift * 32) = acc + n * shift
        conv_rhs => rw [← Nat.div_add_mod n 32]
        ring

theorem unzigzag_zigzag (d : Int) : unzigzag (zigzag d) = d := by
  unfold zigzag unzigzag
  split <;> split <;> omega

theorem decodeLoop_encodeIntsRest (l : List (Int × Int)) : ∀ prev : Int × Int,
    decodeLoop (encodeIntsRest prev l) prev.1 prev.2 = l := by
  induction l with
  | nil => intro prev; rfl
  | cons a rest ih =>
      intro prev
      simp only [encodeIntsRest, List.append_assoc]
      obtain ⟨c, cs, hc⟩ := encodeChunk_shape (zigzag (a.1 - prev.1))
      rw [hc, List.cons_append, decodeLoop_cons, ← List.cons_append, ← hc,
        decodeChunk_encodeChunk]
      simp only [Nat.zero_add, Nat.mul_one, unzigzag_zigzag, decodeChunk_encodeChunk]
      have h1 : prev.1 + (a.1 - prev.1) = a.1 := by ring
      have h2 : prev.2 + (a.2 - prev.2) = a.2 := by ring
      rw [h1, h2]
      exact congrArg₂ (· :: ·) rfl (ih a)

theorem py2Round_intCast (i : Int) : py2Round ((i : ℚ)) = i := by
  unfold py2Round
  have hhalf : ⌊(1 / 2 : ℚ)⌋ = 0 := by
    rw [Int.floor_eq_zero_iff, Set.mem_Ico]
    norm_num
  rcases lt_or_le (i : ℚ) 0 with h | h
  · rw [if_pos h, abs_of_neg h]
    have : ⌊(-(i : ℚ) + 1 / 2)⌋ = -i := by
      rw [show (-(i : ℚ) + 1 / 2) = ((-i : Int) : ℚ) + 1 / 2 by push_cast; ring,
        Int.floor_int_add, hhalf]
      ring
    rw [this]; ring
  · rw [if_neg (not_lt.mpr h), abs_of_nonneg h]
    have : ⌊((i : ℚ) + 1 / 2)⌋ = i := by
      rw [show ((i : ℚ) + 1 / 2) = ((i : Int) : ℚ) + 1 / 2 by norm_num,
        Int.floor_int_add, hhalf]
      ring
    rw [this]; ring

theorem scaleRound_div (p : Int × Int) :
    scaleRound ((p.1 : ℚ) / 100000, (p.2 : ℚ) / 100000) = p := by
  unfold scaleRound
  have h1 : ((p.1 : ℚ) / 100000) * 100000 = (p.1 : ℚ) := by field_simp
  have h2 : ((p.2 : ℚ) / 100000) * 100000 = (p.2 : ℚ) := by field_simp
  rw [Prod.ext_iff]
  constructor
  · show py2Round ((p.1 : ℚ) / 100000 * 100000) = p.1
    rw [h1, py2Round_intCast]
  · show py2Round ((p.2 : ℚ) / 100000 * 100000) = p.2
    rw [h2, py2Round_intCast]

theorem encodeRest_eq_ints (l : List (ℚ × ℚ)) : ∀ prev : ℚ × ℚ,
    encodeRest prev l = encodeIntsRest (scaleRound prev) (l.map scaleRound) := by
  induction l with
  | nil => intro prev; rfl
  | cons a rest ih =>
      intro prev
      show encodeNumber a.1 prev.1 ++ encodeNumber a.2 prev.2 ++ encodeRest a rest = _
      rw [ih a]
      rfl

theorem scaleRound_zero : scaleRound (0, 0) = (0, 0) := by
  unfold scaleRound
  rw [show (((0, 0) : ℚ × ℚ).1 * 100000) = ((0 : Int) : ℚ) by norm_num, py2Round_intCast]

theorem polylineEncode_eq_ints (coords : List (ℚ × ℚ)) :
    polylineEncode coords = encodeIntsRest (0, 0) (coords.map scaleRound) := by
  unfold polylineEncode
  rw [encodeRest_eq_ints, scaleRound_zero]

theorem polylineDecode_encode_ints (L : List (Int × Int)) :
    polylineDecode (encodeIntsRest (0, 0) L)
      = L.map (fun p => ((p.1 : ℚ) / 100000, (p.2 : ℚ) / 100000)) := by
  unfold polylineDecode
  rw [show (0 : Int) = ((0, 0) : Int × Int).1 by rfl]
  rw [show (0 : Int) = ((0, 0) : Int × Int).2 by rfl]
  rw [decodeLoop_encodeIntsRest]

theorem polyline_roundtrip (coords : List (ℚ × ℚ)) :
    polylineEncode (polylineDecode (polylineEncode coords)) = polylineEncode coords := by
  rw [polylineEncode_eq_ints coords, polylineDecode_encode_ints,
    polylineEncode_eq_ints, List.map_map]
  rw [show (scaleRound ∘ fun p : Int × Int => ((p.1 : ℚ) / 100000, (p.2 : ℚ) / 100000)) = id
    from funext fun p => scaleRound_div p]
  rw [List.map_id]

/-- Evaluating `py2Round` through an exact integer value. -/
theorem py2Round_eq (q : ℚ) (i : Int) (h : q = (i : ℚ)) : py2Round q = i :=
  h ▸ py2Round_intCast i

theorem decodeLoop_example :
    decodeLoop exampleGeometry 0 0
      = [(3850000, -12020000), (4070000, -12095000), (4325200, -12645300)] := by
  decide

theorem polylineDecode_example : polylineDecode exampleGeometry = examplePath := by
  unfold polylineDecode examplePath
  rw [decodeLoop_example]
  simp only [List.map_cons, List.map_nil, Prod.mk.injEq, List.cons.injEq]
  norm_num

theorem examplePath_scaled :
    examplePath.map scaleRound
      = [(3850000, -12020000), (4070000, -12095000), (4325200, -12645300)] := by
  simp only [examplePath, List.map_cons, List.map_nil, scaleRound]
  rw [py2Round_eq ((38.5 : ℚ) * 100000) 3850000 (by norm_num),
    py2Round_eq ((-120.2 : ℚ) * 100000) (-12020000) (by norm_num),
    py2Round_eq ((40.7 : ℚ) * 100000) 4070000 (by norm_num),
    py2Round_eq ((-120.95 : ℚ) * 100000) (-12095000) (by norm_num),
    py2Round_eq ((43.252 : ℚ) * 100000) 4325200 (by norm_num),
    py2Round_eq ((-126.453 : ℚ) * 100000) (-12645300) (by norm_num)]

theorem polylineEncode_examplePath : polylineEncode examplePath = exampleGeometry := by
  rw [polylineEncode_eq_ints, examplePath_scaled]
  decide

/-! ## Lemmas about the application state functions -/

/-- `epochSeconds` is the floor of the exact quotient by 1000, as
`Math.floor(millis / 1000)` computes it. -/
theorem epochSeconds_eq_floor (millis : Int) :
    epochSeconds millis = ⌊(millis : ℚ) / 1000⌋ := by
  unfold epochSeconds
  rw [Int.fdiv_eq_ediv _ (by norm_num)]
  rw [show ((1000 : ℚ)) = ((1000 : ℕ) : ℚ) by norm_num,
    Rat.floor_intCast_div_natCast]
  norm_num

theorem enumFrom_filter_ne (l : List α) : ∀ (k n : Nat),
    ((List.enumFrom k l).filter (fun p => p.1 ≠ n)).map Prod.snd
      = if n < k then l else l.eraseIdx (n - k) := by
  induction l with
  | nil => intro k n; simp
  | cons a l ih =>
      intro k n
      simp only [List.enumFrom_cons, List.filter_cons]
      rcases eq_or_ne k n with rfl | hk
      · rw [if_neg (by simp), ih (k + 1) k, if_pos (Nat.lt_succ_self k),
          if_neg (lt_irrefl k), Nat.sub_self, List.eraseIdx_cons_zero]
      · rw [if_pos (by simp [hk]), List.map_cons, ih (k + 1) n]
        rcases lt_or_le n k with h | h
        · rw [if_pos (by omega), if_pos h]
        · rw [if_neg (by omega), if_neg (by omega)]
          obtain ⟨m, hm⟩ : ∃ m, n - k = m + 1 := ⟨n - k - 1, by omega⟩
          rw [hm, List.eraseIdx_cons_succ, show n - (k + 1) = m by omega]

/-- `list.filter((_, i) => i !== index)` deletes exactly the entry at
`index`. -/
theorem filterOutIndex_eq_eraseIdx (l : List α) (n : Nat) :
    filterOutIndex l n = l.eraseIdx n := by
  unfold filterOutIndex
  rw [show l.enum = List.enumFrom 0 l from rfl, enumFrom_filter_ne l 0 n,
    if_neg (Nat.not_lt_zero n), Nat.sub_zero]

/-- Deleting position `i` from a list: shape, length, and the element
shifts on both sides of `i`. -/
theorem eraseIdx_spec (l : List α) (i : Nat) (h : i < l.length) :
    l.eraseIdx i = l.take i ++ l.drop (i + 1)
    ∧ (l.eraseIdx i).length = l.length - 1
    ∧ (∀ j, j < i → (l.eraseIdx i)[j]? = l[j]?)
    ∧ (∀ j, i ≤ j → (l.eraseIdx i)[j]? = l[j + 1]?) := by
  refine ⟨List.eraseIdx_eq_take_drop_succ l i, ?_, ?_, ?_⟩
  · rw [List.length_eraseIdx, if_pos h]
  · intro j hj
    rw [List.getElem?_eraseIdx, if_pos hj]
  · intro j hj
    rw [List.getElem?_eraseIdx, if_neg (not_lt.mpr hj)]

/-! ## The claims -/

/-- Claim C1: For every state with at least one vehicle and at least one job,
`handleOptimize` sends exactly the payload built by `buildData`, in which
the `i`-th vehicle maps to `{id := i, start, time_window}` of the `i`-th
state vehicle and the `j`-th job maps to `{id := j, location := (lng, lat),
time_windows := [window]}` when the job has a window and `none`
otherwise. -/
theorem optimize_payload_shape (s : AppState) (net : NetResult)
    (hv : s.vehicles ≠ []) (hj : s.jobs ≠ []) :
    (handleOptimize s net).2 = some (buildData s.vehicles s.jobs)
    ∧ (∀ i : Nat, (buildData s.vehicles s.jobs).vehicles[i]?
        = s.vehicles[i]?.map (fun v =>
            { id := i, start := v.start, time_window := v.time_window }))
    ∧ (∀ j : Nat, (buildData s.vehicles s.jobs).jobs[j]?
        = s.jobs[j]?.map (fun job =>
            { id := j, location := (job.lng, job.lat),
              time_windows := job.time_window.map (fun w => [w]) })) := by
  have hcond : ¬(s.vehicles.length = 0 ∨ s.jobs.length = 0) := by
    simp [List.length_eq_zero, hv, hj]
  refine ⟨?_, ?_, ?_⟩
  · unfold handleOptimize
    rw [if_neg hcond]
    rcases hno : netOutcome net with _ | rs <;> rfl
  · intro i
    unfold buildData
    rw [List.getElem?_mapIdx]
  · intro j
    unfold buildData
    rw [List.getElem?_mapIdx]

theorem optimize_payload_shape_witness :
    (handleOptimize sampleState (Except.error ())).2
      = some (buildData sampleState.vehicles sampleState.jobs)
    ∧ (buildData sampleState.vehicles sampleState.jobs).vehicles[0]?
      = some { id := 0, start := (31, 30), time_window := some (0, 7200) }
    ∧ (buildData sampleState.vehicles sampleState.jobs).jobs[1]?
      = some { id := 1, location := (32, 29), time_windows := some [(0, 3600)] } := by
  obtain ⟨h1, h2, h3⟩ :=
    optimize_payload_shape sampleState (Except.error ()) (by decide) (by decide)
  refine ⟨h1, ?_, ?_⟩
  · rw [h2 0]; decide
  · rw [h3 1]; decide

/-- Claim C2: With no vehicle or no job, `handleOptimize` issues no network
call, sets the precondition error message, and leaves jobs, vehicles and
routes unchanged. -/
theorem optimize_precondition (s : AppState) (net : NetResult)
    (h : s.vehicles = [] ∨ s.jobs = []) :
    (handleOptimize s net).2 = none
    ∧ (handleOptimize s net).1.error = "Please add at least one vehicle and one job."
    ∧ (handleOptimize s net).1.jobs = s.jobs
    ∧ (handleOptimize s net).1.vehicles = s.vehicles
    ∧ (handleOptimize s net).1.routes = s.routes := by
  unfold handleOptimize
  rw [if_pos (by rcases h with h | h <;> simp [h])]
  exact ⟨rfl, rfl, rfl, rfl, rfl⟩

theorem optimize_precondition_witness :
    (handleOptimize emptyVehiclesState (Except.error ())).2 = none
    ∧ (handleOptimize emptyVehiclesState (Except.error ())).1.error
      = "Please add at least one vehicle and one job."
    ∧ (handleOptimize emptyVehiclesState (Except.error ())).1.routes
      = emptyVehiclesState.routes := by
  have h := optimize_precondition emptyVehiclesState (Except.error ()) (Or.inl rfl)
  exact ⟨h.1, h.2.1, h.2.2.2.2⟩

/-- Claim C3: Decoding a geometry string yields an ordered list of
`(lat, lng)` pairs; the codec satisfies `encode (decode x) = x` for every
valid encoded string (an encoding of some path), and the geometry encoding
the example path of the spec decodes to exactly those three pairs in order. -/
theorem polyline_codec_roundtrip :
    (∀ x : List Nat, ValidEncoding x → polylineEncode (polylineDecode x) = x)
    ∧ polylineDecode exampleGeometry
      = [(38.5, -120.2), (40.7, -120.95), (43.252, -126.453)] := by
  constructor
  · rintro x ⟨coords, rfl⟩
    exact polyline_roundtrip coords
  · exact polylineDecode_example

theorem polyline_codec_roundtrip_witness :
    ValidEncoding exampleGeometry
    ∧ polylineEncode (polylineDecode exampleGeometry) = exampleGeometry :=
  ⟨⟨examplePath, polylineEncode_examplePath⟩,
    polyline_codec_roundtrip.1 exampleGeometry ⟨examplePath, polylineEncode_examplePath⟩⟩

/-- Claim C4: With a selected location, `addJob` appends exactly one job at
that location; its time window is `[⌊start/1000⌋, ⌊end/1000⌋]` in epoch
seconds when both pickers hold values and absent when either is empty. -/
theorem addJob_appends (s : AppState) (loc : LatLng)
    (h : s.selectedLocation = some loc) :
    (addJob s).jobs = s.jobs ++
      [{ lat := loc.lat, lng := loc.lng,
         time_window := pickedWindow s.jobTimeWindowStart s.jobTimeWindowEnd }]
    ∧ (∀ a b : Int, s.jobTimeWindowStart = some a → s.jobTimeWindowEnd = some b →
        pickedWindow s.jobTimeWindowStart s.jobTimeWindowEnd
          = some (⌊(a : ℚ) / 1000⌋, ⌊(b : ℚ) / 1000⌋))
    ∧ ((s.jobTimeWindowStart = none ∨ s.jobTimeWindowEnd = none) →
        pickedWindow s.jobTimeWindowStart s.jobTimeWindowEnd = none) := by
  refine ⟨?_, ?_, ?_⟩
  · unfold addJob
    rw [h]
  · intro a b ha hb
    rw [ha, hb]
    show some (epochSeconds a, epochSeconds b) = _
    rw [epochSeconds_eq_floor, epochSeconds_eq_floor]
  · intro hn
    rcases hn with hn | hn
    · rw [hn]
      cases s.jobTimeWindowEnd <;> rfl
    · rw [hn]
      cases s.jobTimeWindowStart <;> rfl

theorem addJob_appends_witness :
    (addJob selectedState).jobs = selectedState.jobs ++
      [{ lat := 30, lng := 31, time_window := some (1704067200, 1704070800) }] := by
  have h := addJob_appends selectedState { lat := 30, lng := 31 } rfl
  rw [h.1]
  decide

/-- Claim C5: Removing index `i` (`i < n`) from the job or vehicle list keeps
the prefix, drops exactly the element at `i`, shortens the list to `n - 1`,
and shifts every later element down one position. -/
theorem remove_shifts (s : AppState) (i : Nat) :
    (i < s.jobs.length →
      (removeJob s i).jobs = s.jobs.take i ++ s.jobs.drop (i + 1)
      ∧ (removeJob s i).jobs.length = s.jobs.length - 1
      ∧ (∀ j, j < i → (removeJob s i).jobs[j]? = s.jobs[j]?)
      ∧ (∀ j, i ≤ j → (removeJob s i).jobs[j]? = s.jobs[j + 1]?))
    ∧ (i < s.vehicles.length →
      (removeVehicle s i).vehicles = s.vehicles.take i ++ s.vehicles.drop (i + 1)
      ∧ (removeVehicle s i).vehicles.length = s.vehicles.length - 1
      ∧ (∀ j, j < i → (removeVehicle s i).vehicles[j]? = s.vehicles[j]?)
      ∧ (∀ j, i ≤ j → (removeVehicle s i).vehicles[j]? = s.vehicles[j + 1]?)) := by
  constructor
  · intro h
    have e : (removeJob s i).jobs = s.jobs.eraseIdx i := filterOutIndex_eq_eraseIdx _ _
    rw [e]
    exact eraseIdx_spec s.jobs i h
  · intro h
    have e : (removeVehicle s i).vehicles = s.vehicles.eraseIdx i :=
      filterOutIndex_eq_eraseIdx _ _
    rw [e]
    exact eraseIdx_spec s.vehicles i h

theorem remove_shifts_witness :
    (removeJob sampleState 0).jobs = sampleState.jobs.take 0 ++ sampleState.jobs.drop 1
    ∧ (removeJob sampleState 0).jobs.length = sampleState.jobs.length - 1
    ∧ (removeVehicle sampleState 0).vehicles.length = sampleState.vehicles.length - 1 := by
  have h1 := (remove_shifts sampleState 0).1 (by decide)
  have h2 := (remove_shifts sampleState 0).2 (by decide)
  exact ⟨h1.1, h1.2.1, h2.2.1⟩

/-- Claim C6: Without a selected location, `addJob` and `addVehicle` leave
the whole state — lists, pickers and selection — untouched. -/
theorem add_without_selection_noop (s : AppState) (h : s.selectedLocation = none) :
    addJob s = s ∧ addVehicle s = s := by
  unfold addJob addVehicle
  rw [h]
  exact ⟨rfl, rfl⟩

theorem add_without_selection_noop_witness :
    addJob sampleState = sampleState ∧ addVehicle sampleState = sampleState :=
  add_without_selection_noop sampleState rfl

/-- Claim C7: The palette has five pairwise-distinct styles; positions 0–4
use them in order, and every position from 5 on falls back to the style of
position 0. -/
theorem route_style_palette :
    Options.length = 5
    ∧ Options.Nodup
    ∧ (∀ i, i < 5 → styleForRoute i = Options[i]!)
    ∧ (∀ i, 5 ≤ i → styleForRoute i = styleForRoute 0) := by
  refine ⟨rfl, by decide, ?_, ?_⟩
  · intro i hi
    interval_cases i <;> rfl
  · intro i hi
    unfold styleForRoute
    have h5 : (Options[i]?) = none := List.getElem?_eq_none (by simpa using hi)
    rw [h5]
    rfl

theorem route_style_palette_witness :
    styleForRoute 3 = Options[3]! ∧ styleForRoute 7 = styleForRoute 0 :=
  ⟨route_style_palette.2.2.1 3 (by decide), route_style_palette.2.2.2 7 (by decide)⟩

/-- Claim C8: Every optimize attempt behaves as if both message slots were
cleared first (the result does not depend on the incoming messages), and on
every return at most one of the two messages is non-empty. -/
theorem optimize_messages (s : AppState) (net : NetResult) :
    handleOptimize s net = handleOptimize { s with error := "", success := "" } net
    ∧ ((handleOptimize s net).1.error = "" ∨ (handleOptimize s net).1.success = "") := by
  constructor
  · rfl
  · unfold handleOptimize
    by_cases h : s.vehicles.length = 0 ∨ s.jobs.length = 0
    · rw [if_pos h]
      exact Or.inr rfl
    · rw [if_neg h]
      rcases hno : netOutcome net with _ | rs
      · exact Or.inr rfl
      · exact Or.inl rfl

/-- Claim C9: With a selected location, `addVehicle` appends exactly one
vehicle whose start and end both equal the selected location, then clears
the selection and both vehicle pickers. -/
theorem addVehicle_appends (s : AppState) (loc : LatLng)
    (h : s.selectedLocation = some loc) :
    (addVehicle s).vehicles = s.vehicles ++
      [{ start := (loc.lng, loc.lat), «end» := (loc.lng, loc.lat),
         time_window := pickedWindow s.vehicleTimeWindowStart s.vehicleTimeWindowEnd }]
    ∧ (addVehicle s).selectedLocation = none
    ∧ (addVehicle s).vehicleTimeWindowStart = none
    ∧ (addVehicle s).vehicleTimeWindowEnd = none := by
  unfold addVehicle
  rw [h]
  exact ⟨rfl, rfl, rfl, rfl⟩

theorem addVehicle_appends_witness :
    (addVehicle selectedState).vehicles = selectedState.vehicles ++
      [{ start := (31, 30), «end» := (31, 30),
         time_window := some (1704067200, 1704070800) }]
    ∧ (addVehicle selectedState).selectedLocation = none
    ∧ (addVehicle selectedState).vehicleTimeWindowStart = none
    ∧ (addVehicle selectedState).vehicleTimeWindowEnd = none := by
  have h := addVehicle_appends selectedState { lat := 30, lng := 31 } rfl
  refine ⟨?_, h.2.1, h.2.2.1, h.2.2.2⟩
  rw [h.1]
  decide

/-- Claim C10: Once the precondition passes, any failing exchange — network
error or a response whose routes or a geometry is missing — leaves routes,
jobs and vehicles unchanged; and the route list changes only when the whole
response decoded successfully, to exactly the decoded routes. -/
theorem optimize_failure_preserves (s : AppState) (net : NetResult)
    (hv : s.vehicles ≠ []) (hj : s.jobs ≠ []) :
    ((net = Except.error () ∨ ∃ sol, net = Except.ok sol ∧ decodeSolution sol = none) →
      (handleOptimize s net).1.routes = s.routes
      ∧ (handleOptimize s net).1.jobs = s.jobs
      ∧ (handleOptimize s net).1.vehicles = s.vehicles)
    ∧ ((handleOptimize s net).1.routes ≠ s.routes →
      ∃ sol newRoutes, net = Except.ok sol ∧ decodeSolution sol = some newRoutes
        ∧ (handleOptimize s net).1.routes = newRoutes) := by
  have hcond : ¬(s.vehicles.length = 0 ∨ s.jobs.length = 0) := by
    simp [List.length_eq_zero, hv, hj]
  constructor
  · intro hfail
    have hno : netOutcome net = none := by
      rcases hfail with rfl | ⟨sol, rfl, hd⟩
      · rfl
      · exact hd
    unfold handleOptimize
    rw [if_neg hcond, hno]
    exact ⟨rfl, rfl, rfl⟩
  · intro hne
    unfold handleOptimize at hne ⊢
    rw [if_neg hcond] at hne ⊢
    rcases net with e | sol
    · exact absurd rfl hne
    · rcases hds : decodeSolution sol with _ | rs
      · rw [show netOutcome (Except.ok sol) = none from hds] at hne
        exact absurd rfl hne
      · refine ⟨sol, rs, rfl, hds, ?_⟩
        rw [show netOutcome (Except.ok sol) = some rs from hds]

theorem optimize_failure_preserves_witness :
    (handleOptimize sampleState (Except.error ())).1.routes = sampleState.routes
    ∧ (handleOptimize sampleState (Except.error ())).1.jobs = sampleState.jobs := by
  have h := (optimize_failure_preserves sampleState (Except.error ())
    (by decide) (by decide)).1 (Or.inl rfl)
  exact ⟨h.1, h.2.1⟩

end RoutePlanner
